import Mathlib

/-
Verification development for the SunNEI core module
(src/sunnei/core/data_management.py).

The Python module is embedded shallowly:

* NumPy float64 arrays become lists of rationals (ℚ); the ordering facts
  settled here (comparisons against the literals 1e-14, 9e-10, 1e-9, and
  the allclose tolerances) are insensitive to this choice because every
  comparison in question is between values whose float64 images stand in
  the same order as their rational images.
* Python dictionaries keyed by element symbols become association lists
  (List (String × _)) with first-match lookup; since the code writes each
  key once per pass, first-match lookup agrees with dict semantics.
* Exceptions (assert failures, KeyError, IndexError, missing files)
  become Except String.
* NumPy aliasing matters: in `create_ChargeStates_dictionary` the line
  `ChargeStates[element] = AtomicData[element]['equistate'][TemperatureIndex,:]`
  binds a view, so the per-entry cleanup writes back into the caller's
  equistate table.  The embedding therefore threads the AtomicData value
  through the equilibrium loop and returns the post-call table.
* File I/O is abstracted as a map from element symbol to the parsed
  record contents (`String → Option FileRec`); `none` models a missing
  or unreadable file.  The binary parsing itself (scipy FortranFile) is
  out of scope of the claims.
* `func_index_te` is an external collaborator (imported from
  .time_advance, not part of this module); it is passed as an explicit
  function parameter, as the spec treats it as a consumed interface.
-/

deriving instance DecidableEq for Except

namespace SunNEI

/-- First-match association-list lookup, the embedding of Python dict
indexing `d[key]` (with `none` standing for KeyError). -/
def dictLookup {α : Type} (key : String) : List (String × α) → Option α
  | [] => none
  | (k, v) :: rest => if key = k then some v else dictLookup key rest

/-- The module-level pandas Series `AtomicNumbers` (lines 8-13): the 28
element symbols H..Ni mapped to atomic numbers 1..28. -/
def AtomicNumbersList : List (String × ℕ) :=
  [("H", 1), ("He", 2),
   ("Li", 3), ("Be", 4), ("B", 5), ("C", 6), ("N", 7), ("O", 8), ("F", 9), ("Ne", 10),
   ("Na", 11), ("Mg", 12), ("Al", 13), ("Si", 14), ("P", 15), ("S", 16), ("Cl", 17), ("Ar", 18),
   ("K", 19), ("Ca", 20), ("Sc", 21), ("Ti", 22), ("V", 23), ("Cr", 24), ("Mn", 25), ("Fe", 26),
   ("Co", 27), ("Ni", 28)]

/-- Series lookup `AtomicNumbers[element]`; `none` models the KeyError on
an unknown symbol. -/
def AtomicNumbers (element : String) : Option ℕ :=
  dictLookup element AtomicNumbersList

/-- Parsed contents of one per-element binary file `<symbol>eigen.dat`
(the eight records read in lines 89-96).  A `FileRec` stands for a file
that parsed successfully; the reshape calls fix the shapes of the arrays
relative to nte and nstates. -/
structure FileRec where
  nte : ℕ
  nelems : ℕ
  temperatures : List ℚ
  equistate : List (List ℚ)
  eigenvalues : List (List ℚ)
  eigenvector : List (List (List ℚ))
  eigenvector_inv : List (List (List ℚ))
  c_rate : List (List ℚ)
  r_rate : List (List ℚ)
deriving DecidableEq

/-- Per-element entry of the atomic_data dictionary (lines 108-117). -/
structure ElemData where
  element : String
  AtomicNumber : ℕ
  nstates : ℕ
  equistate : List (List ℚ)
  eigenvalues : List (List ℚ)
  eigenvector : List (List (List ℚ))
  eigenvector_inv : List (List (List ℚ))
  ionization_rate : List (List ℚ)
  recombination_rate : List (List ℚ)
deriving DecidableEq

/-- The atomic_data dictionary: top-level shared grid data (lines 99-101)
plus the per-element tables keyed by symbol. -/
structure AtomicData where
  nte : ℕ
  nelems : ℕ
  temperatures : List ℚ
  tables : List (String × ElemData)
deriving DecidableEq

/-- Builds the per-element dictionary entry of lines 108-117 from the
registry atomic number and the parsed file contents. -/
def mkElemData (element : String) (z : ℕ) (f : FileRec) : ElemData :=
  { element := element
    AtomicNumber := z
    nstates := z + 1
    equistate := f.equistate
    eigenvalues := f.eigenvalues
    eigenvector := f.eigenvector
    eigenvector_inv := f.eigenvector_inv
    ionization_rate := f.c_rate
    recombination_rate := f.r_rate }

/-- Embedding of numpy.isclose with the default tolerances rtol = 1e-5
and atol = 1e-8: close a b means abs (a - b) ≤ atol + rtol * abs b. -/
def np_isclose (a b : ℚ) : Bool :=
  decide (|a - b| ≤ 1 / 10 ^ 8 + (1 / 10 ^ 5) * |b|)

/-- Embedding of numpy.allclose on one-dimensional arrays of equal
length: componentwise np_isclose.  (The claims use it only on arrays of
equal length, matching the nte consistency check that precedes it.) -/
def np_allclose (a b : List ℚ) : Bool :=
  a.length == b.length && (List.zip a b).all fun p => np_isclose p.1 p.2

/-- Well-formedness of a data directory at one symbol: if a parsed file
is present there, its temperature-grid record really holds nte values
(true of every file the Fortran generator writes; under this condition
the equal-length guard inside np_allclose is never the deciding factor,
matching the fact that numpy.allclose on the equal-length grids never
raises a broadcast error). -/
def fileWFb (files : String → Option FileRec) (e : String) : Bool :=
  match files e with
  | some f => f.temperatures.length == f.nte
  | none => true

/-- Per-element preamble of the read loop (lines 83-87): registry lookup
`AtomicNumbers[element]` (KeyError on an unknown symbol) then the file
open (FileNotFoundError when the file is absent). -/
def readElem (files : String → Option FileRec) (element : String) :
    Except String (ℕ × FileRec) :=
  match AtomicNumbers element with
  | none => .error ("KeyError: " ++ element)
  | some z =>
    match files element with
    | none => .error ("No such file: " ++ element)
    | some f => .ok (z, f)

/-- Loop body of read_atomic_data for the elements after the first
(lines 78-117, else branch of line 103): the element is read, then must
match the adopted nte, nelems and temperature grid (the three asserts of
lines 104-106), and on success its table is appended (line 108). -/
def read_atomic_data_step (files : String → Option FileRec) (e : String)
    (ad : AtomicData) : Except String AtomicData :=
  match readElem files e with
  | .error msg => .error msg
  | .ok (z, f) =>
    if f.nte ≠ ad.nte then
      .error ("Atomic data files have different number of temperature levels: " ++ e)
    else if f.nelems ≠ ad.nelems then
      .error ("Atomic data files have different number of elements: " ++ e)
    else if ¬ np_allclose ad.temperatures f.temperatures then
      .error "Atomic data files have different temperature bins"
    else
      .ok { ad with tables := ad.tables ++ [(e, mkElemData e z f)] }

/-- The loop of read_atomic_data over the elements after the first: one
read_atomic_data_step per element, aborting at the first failure (a
Python assert or exception aborts the whole call). -/
def read_atomic_data_rest (files : String → Option FileRec) :
    List String → AtomicData → Except String AtomicData
  | [], ad => .ok ad
  | e :: rest, ad =>
    match read_atomic_data_step files e ad with
    | .error msg => .error msg
    | .ok ad2 => read_atomic_data_rest files rest ad2

/-- Embedding of read_atomic_data (lines 15-123): the first element's
nte, nelems and temperature grid are adopted at top level (lines 98-102)
and every further element is checked against them.  The Python function
returns a dictionary lacking the top-level keys when `elements` is
empty; no later operation can consume that degenerate value, and the
embedding reports it as an error. -/
def read_atomic_data (elements : List String) (files : String → Option FileRec) :
    Except String AtomicData :=
  match elements with
  | [] => .error "no elements requested"
  | e :: rest =>
    match readElem files e with
    | .error msg => .error msg
    | .ok (z, f) =>
      read_atomic_data_rest files rest
        { nte := f.nte
          nelems := f.nelems
          temperatures := f.temperatures
          tables := [(e, mkElemData e z f)] }

/-- The per-entry numerical cleanup of lines 184-188 (loop body of the
equilibrium branch of create_ChargeStates_dictionary): entries below
1e-14 become 0.0; entries x with 1.0 < x and x < 1.0 + 9e-10 become 1.0
(both comparisons strict in the source); everything else is unchanged. -/
def cleanupEntry (x : ℚ) : ℚ :=
  if x < 1 / 10 ^ 14 then 0
  else if 1 < x ∧ x < 1 + 9 / 10 ^ 10 then 1
  else x

/-- The cleanup loop over one distribution row: each entry is read and
rewritten independently, so the in-place loop is a map. -/
def cleanupRow (row : List ℚ) : List ℚ :=
  row.map cleanupEntry

/-- The neutral distribution of lines 167-168: np.zeros(Z+1) with entry
0 set to 1. -/
def neutralRow (z : ℕ) : List ℚ :=
  (List.replicate (z + 1) 0).set 0 1

/-- The first loop of create_ChargeStates_dictionary (lines 166-168):
every requested element gets the neutral distribution; an unknown symbol
raises KeyError at the registry lookup. -/
def neutralPass : List String → Except String (List (String × List ℚ))
  | [] => .ok []
  | e :: rest =>
    match AtomicNumbers e with
    | none => .error ("KeyError: " ++ e)
    | some z =>
      match neutralPass rest with
      | .error msg => .error msg
      | .ok ns => .ok ((e, neutralRow z) :: ns)

/-- Pointwise table update used by setEquistateRow: the entry keyed by
the given element gets row idx of its equistate replaced; every other
entry is untouched. -/
def setRowFn (element : String) (idx : ℕ) (row : List ℚ) :
    String × ElemData → String × ElemData
  | (k, t) =>
    if k = element then (k, { t with equistate := t.equistate.set idx row }) else (k, t)

/-- Writes one row of one element's equistate table in place (the effect
of the cleanup loop acting through the NumPy view bound at line 182). -/
def setEquistateRow (ad : AtomicData) (element : String) (idx : ℕ) (row : List ℚ) :
    AtomicData :=
  { ad with tables := ad.tables.map (setRowFn element idx row) }

/-- The equilibrium loop of lines 180-188: for each element, bind the
equistate row at the resolved temperature index (a view) and clean it in
place; the dictionary entry and the table row alias the same storage, so
both end up holding the cleaned row.  An out-of-range index raises
IndexError at the row access; a missing table entry raises KeyError.
(The AtomicNumbers lookup at line 181 cannot raise here because the
neutral pass already looked every requested element up.) -/
def equilPass (idx : ℕ) : List String → AtomicData →
    Except String (List (String × List ℚ) × AtomicData)
  | [], ad => .ok ([], ad)
  | e :: rest, ad =>
    match dictLookup e ad.tables with
    | none => .error ("KeyError: " ++ e)
    | some t =>
      match t.equistate.get? idx with
      | none => .error "IndexError: index out of bounds"
      | some row =>
        match equilPass idx rest (setEquistateRow ad e idx (cleanupRow row)) with
        | .error msg => .error msg
        | .ok (cs, ad2) => .ok ((e, cleanupRow row) :: cs, ad2)

/-- The final normalization check of lines 192-195: for each element in
request order, the distribution's sum must lie strictly within
(1 - 1e-9, 1 + 1e-9); otherwise the assert fires naming the element. -/
def sumCheck : List (String × List ℚ) → Except String Unit
  | [] => .ok ()
  | (e, d) :: rest =>
    if 1 - 1 / 10 ^ 9 < d.sum ∧ d.sum < 1 + 1 / 10 ^ 9 then sumCheck rest
    else .error ("Initial charge states do not sum to one for " ++ e)

/-- The optional-AtomicData pattern of lines 177-178 (and lines 232-233):
when no dictionary is supplied the data is loaded via read_atomic_data;
the Bool records whether a load happened. -/
def loadStep (files : String → Option FileRec) (elements : List String)
    (atomicDataIn : Option AtomicData) : Except String (AtomicData × Bool) :=
  match atomicDataIn with
  | none =>
    match read_atomic_data elements files with
    | .error msg => .error msg
    | .ok ad => .ok (ad, true)
  | some ad => .ok (ad, false)

/-- Embedding of create_ChargeStates_dictionary (lines 125-197).  The
result carries the charge-state dictionary in request order, the
caller-visible AtomicData after the call (when one was supplied, it is
returned as mutated by the in-place cleanup; an internally loaded one is
discarded, as in the source), and whether read_atomic_data was invoked. -/
def create_ChargeStates_dictionary (func_index_te : ℚ → List ℚ → ℕ)
    (files : String → Option FileRec) (elements : List String)
    (temperature : ℚ) (atomicDataIn : Option AtomicData) :
    Except String (List (String × List ℚ) × Option AtomicData × Bool) :=
  match neutralPass elements with
  | .error msg => .error msg
  | .ok neutral =>
    if 0 < temperature then
      match loadStep files elements atomicDataIn with
      | .error msg => .error msg
      | .ok (ad, loaded) =>
        match equilPass (func_index_te temperature ad.temperatures) elements ad with
        | .error msg => .error msg
        | .ok (cs, ad2) =>
          match sumCheck cs with
          | .error msg => .error msg
          | .ok _ => .ok (cs, atomicDataIn.map (fun _ => ad2), loaded)
    else
      match sumCheck neutral with
      | .error msg => .error msg
      | .ok _ => .ok (neutral, atomicDataIn, false)

/-- Per-entry body of the cleanup loop in EquilChargeStates (lines
238-242).  The elif condition reads
`ChargeStates[istate] > 1.0 and ChargeStates[element][istate] < 1.0 + 9e-10`
where ChargeStates is the one-dimensional row: the stale expression
`ChargeStates[element]` string-indexes a 1-D float array, so whenever an
entry exceeds 1.0 (the left conjunct, evaluated first, is True) NumPy
raises IndexError before any clamping can happen. -/
def equilCleanupEntry (x : ℚ) : Except String ℚ :=
  if x < 1 / 10 ^ 14 then .ok 0
  else if 1 < x then .error "IndexError: only integers are valid indices"
  else .ok x

/-- The cleanup loop of EquilChargeStates over one row, stopping at the
first entry that trips the stale-variable IndexError. -/
def equilCleanupRow : List ℚ → Except String (List ℚ)
  | [] => .ok []
  | x :: rest =>
    match equilCleanupEntry x with
    | .error msg => .error msg
    | .ok y =>
      match equilCleanupRow rest with
      | .error msg => .error msg
      | .ok ys => .ok (y :: ys)

/-- Embedding of EquilChargeStates (lines 226-244).  Line 232 tests
`AtomicData.__class__ != dict`, so any non-dict argument — in particular
the absent/None case — triggers a fresh read_atomic_data([element]) load
(line 233).  The Bool in the result records whether that load happened.
The function returns the cleaned row; as in
create_ChargeStates_dictionary the row is a view into the (possibly
caller-supplied) equistate table, but since this function's return value
is just the row, the embedding does not return the post-call table. -/
def EquilChargeStates (func_index_te : ℚ → List ℚ → ℕ)
    (files : String → Option FileRec) (temperature : ℚ) (element : String)
    (atomicDataIn : Option AtomicData) : Except String (List ℚ × Bool) :=
  match loadStep files [element] atomicDataIn with
  | .error msg => .error msg
  | .ok (ad, loaded) =>
    match dictLookup element ad.tables with
    | none => .error ("KeyError: " ++ element)
    | some t =>
      match t.equistate.get? (func_index_te temperature ad.temperatures) with
      | none => .error "IndexError: index out of bounds"
      | some row =>
        match equilCleanupRow row with
        | .error msg => .error msg
        | .ok cleaned => .ok (cleaned, loaded)

/-- NumPy semantics of the slice assignment at lines 222-223:
`dest[istep, 0:ncharge] = src[0:ncharge]`.  The right-hand side is first
truncated to at most ncharge entries; the assignment then succeeds when
the truncated length equals ncharge, or broadcasts when it is 1, and
raises a broadcast ValueError otherwise. -/
def npSliceAssign (ncharge : ℕ) (dist : List ℚ) : Except String (List ℚ) :=
  let src := dist.take ncharge
  if src.length = ncharge then .ok src
  else
    match src with
    | [x] => .ok (List.replicate ncharge x)
    | _ => .error "ValueError: could not broadcast input array"

/-- Inner loop of ReformatChargeStateList (lines 221-223) for one
element: for each step index, index the list of snapshots (IndexError
when out of range), look the element up in that snapshot (KeyError when
absent) and slice-assign its distribution into the row. -/
def reformatRows (csl : List (List (String × List ℚ))) (element : String)
    (ncharge : ℕ) : List ℕ → Except String (List (List ℚ))
  | [] => .ok []
  | istep :: more =>
    match csl.get? istep with
    | none => .error "IndexError: list index out of range"
    | some snapshot =>
      match dictLookup element snapshot with
      | none => .error ("KeyError: " ++ element)
      | some dist =>
        match npSliceAssign ncharge dist with
        | .error msg => .error msg
        | .ok row =>
          match reformatRows csl element ncharge more with
          | .error msg => .error msg
          | .ok rows => .ok (row :: rows)

/-- Outer loop of ReformatChargeStateList (lines 218-223): one
[nsteps+1 × ncharge] block per element, built row by row. -/
def reformatElems (csl : List (List (String × List ℚ))) (nsteps : ℕ) :
    List String → Except String (List (String × List (List ℚ)))
  | [] => .ok []
  | e :: rest =>
    match AtomicNumbers e with
    | none => .error ("KeyError: " ++ e)
    | some z =>
      match reformatRows csl e (z + 1) (List.range (nsteps + 1)) with
      | .error msg => .error msg
      | .ok rows =>
        match reformatElems csl nsteps rest with
        | .error msg => .error msg
        | .ok out => .ok ((e, rows) :: out)

/-- Embedding of ReformatChargeStateList (lines 199-224). -/
def ReformatChargeStateList (ChargeStateList : List (List (String × List ℚ)))
    (elements : List String) (nsteps : ℕ) :
    Except String (List (String × List (List ℚ))) :=
  reformatElems ChargeStateList nsteps elements

/-- Concrete temperature-index resolver used in concrete evaluations: a
resolver that always answers grid index 0, a valid deterministic answer
for the one-point grids of the fixtures. -/
def fit0 : ℚ → List ℚ → ℕ := fun _ _ => 0

/-- Fixture: parsed contents of a well-formed one-temperature file for
hydrogen, equilibrium row [1, 0]. -/
def fileH : FileRec :=
  { nte := 1, nelems := 28, temperatures := [4]
    equistate := [[1, 0]], eigenvalues := [], eigenvector := []
    eigenvector_inv := [], c_rate := [], r_rate := [] }

/-- Fixture: a matching helium file on the same one-point grid. -/
def fileHe : FileRec :=
  { nte := 1, nelems := 28, temperatures := [4]
    equistate := [[1, 0, 0]], eigenvalues := [], eigenvector := []
    eigenvector_inv := [], c_rate := [], r_rate := [] }

/-- Fixture: a helium file whose one-point grid differs from fileH's by
more than the allclose tolerance. -/
def fileHeFar : FileRec :=
  { fileHe with temperatures := [5] }

/-- Fixture: a data directory holding the H and He files. -/
def files0 : String → Option FileRec := fun e =>
  if e = "H" then some fileH else if e = "He" then some fileHe else none

/-- Fixture: a data directory holding H and the far-grid He file. -/
def filesFar : String → Option FileRec := fun e =>
  if e = "H" then some fileH else if e = "He" then some fileHeFar else none

/-- Fixture: an empty data directory (every open raises). -/
def filesNone : String → Option FileRec := fun _ => none

/-- Fixture: a hydrogen file whose equilibrium row [1, 5e-15] carries
roundoff dust below the 1e-14 threshold. -/
def fileHdirty : FileRec :=
  { fileH with equistate := [[1, 5 / 10 ^ 15]] }

/-- Fixture: a hydrogen file whose equilibrium row [1 + 5e-10, 0] has an
entry slightly above 1 (inside the clamp window of Operation B). -/
def fileHover : FileRec :=
  { fileH with equistate := [[1 + 5 / 10 ^ 10, 0]] }

/-- Fixture: an AtomicData dictionary as read_atomic_data would build it
from fileHdirty for hydrogen alone. -/
def adDirty : AtomicData :=
  { nte := 1, nelems := 28, temperatures := [4]
    tables := [("H", mkElemData "H" 1 fileHdirty)] }

/-- Fixture: the table adDirty after the equilibrium pass has cleaned
row 0 of hydrogen's equistate in place. -/
def adDirtyPost : AtomicData :=
  setEquistateRow adDirty "H" 0 [1, 0]

/-- Fixture: an AtomicData dictionary whose hydrogen equilibrium row has
an entry slightly above 1. -/
def adOver : AtomicData :=
  { nte := 1, nelems := 28, temperatures := [4]
    tables := [("H", mkElemData "H" 1 fileHover)] }

/-! Helper lemmas about lists. -/

theorem get?_some_lt {α : Type} :
    ∀ {l : List α} {n : ℕ} {a : α}, l.get? n = some a → n < l.length := by
  intro l
  induction l with
  | nil => intro n a h; cases h
  | cons x xs ih =>
    intro n a h
    cases n with
    | zero => simp
    | succ m =>
      have hm : xs.get? m = some a := h
      exact Nat.succ_lt_succ (ih hm)

theorem get?_set_self {α : Type} :
    ∀ (l : List α) (n : ℕ) (b : α), n < l.length → (l.set n b).get? n = some b := by
  intro l
  induction l with
  | nil => intro n b h; cases h
  | cons x xs ih =>
    intro n b h
    cases n with
    | zero => rfl
    | succ m => exact ih m b (Nat.lt_of_succ_lt_succ h)

theorem get?_replicate_of_lt {α : Type} (a : α) :
    ∀ (n i : ℕ), i < n → (List.replicate n a).get? i = some a := by
  intro n
  induction n with
  | zero => intro i h; cases h
  | succ m ih =>
    intro i h
    cases i with
    | zero => rfl
    | succ j => exact ih j (Nat.lt_of_succ_lt_succ h)

theorem sum_replicate_zero : ∀ n : ℕ, (List.replicate n (0 : ℚ)).sum = 0 := by
  intro n
  induction n with
  | zero => rfl
  | succ m ih => simp [List.replicate_succ, ih]

/-! Helper lemmas about the per-entry cleanup. -/

theorem cleanupEntry_of_small {x : ℚ} (h : x < 1 / 10 ^ 14) : cleanupEntry x = 0 :=
  if_pos h

theorem cleanupEntry_of_clamp {x : ℚ} (h1 : 1 < x) (h2 : x < 1 + 9 / 10 ^ 10) :
    cleanupEntry x = 1 := by
  have hns : ¬ x < 1 / 10 ^ 14 := by
    have : (1 : ℚ) / 10 ^ 14 < 1 := by norm_num
    linarith
  unfold cleanupEntry
  rw [if_neg hns, if_pos ⟨h1, h2⟩]

theorem cleanupEntry_of_other {x : ℚ} (h1 : ¬ x < 1 / 10 ^ 14)
    (h2 : ¬ (1 < x ∧ x < 1 + 9 / 10 ^ 10)) : cleanupEntry x = x := by
  unfold cleanupEntry
  rw [if_neg h1, if_neg h2]

theorem cleanupEntry_idem (x : ℚ) : cleanupEntry (cleanupEntry x) = cleanupEntry x := by
  rcases lt_or_ge x (1 / 10 ^ 14) with h1 | h1
  · rw [cleanupEntry_of_small h1, cleanupEntry_of_small (by norm_num)]
  · by_cases h2 : 1 < x ∧ x < 1 + 9 / 10 ^ 10
    · rw [cleanupEntry_of_clamp h2.1 h2.2,
        cleanupEntry_of_other (by norm_num) (by norm_num)]
    · rw [cleanupEntry_of_other (not_lt_of_ge h1) h2,
        cleanupEntry_of_other (not_lt_of_ge h1) h2]

/-- C9: the per-entry numerical cleanup rule (below 1e-14 to 0.0; in the
clamp window just above 1.0 to 1.0) is idempotent: for every input
vector, applying the cleanup twice yields the same result as applying it
once. -/
theorem cleanupRow_idempotent (row : List ℚ) :
    cleanupRow (cleanupRow row) = cleanupRow row := by
  unfold cleanupRow
  rw [List.map_map]
  exact List.map_congr_left fun x _ => cleanupEntry_idem x

/-- C4 counterexample: the upper endpoint 1.0 + 9e-10 itself is NOT
mapped to 1.0 by the cleanup of lines 184-188 — the source compares with
a strict `<`, so the endpoint is left unchanged (and it differs from
1.0). -/
theorem cleanup_upper_endpoint_cex :
    cleanupEntry (1 + 9 / 10 ^ 10) = 1 + 9 / 10 ^ 10 ∧
      (1 + 9 / 10 ^ 10 : ℚ) ≠ 1 := by
  constructor
  · exact cleanupEntry_of_other (by norm_num) (by norm_num)
  · norm_num

/-- C4 (amended): the per-entry cleanup maps values strictly below 1e-14
to 0.0 and values in the OPEN interval (1.0, 1.0 + 9e-10) to 1.0; the
upper endpoint 1.0 + 9e-10 itself and every other value outside the two
ranges are left unchanged (the two rules are exclusive, so their order
is immaterial on every input). -/
theorem cleanupEntry_piecewise (x : ℚ) :
    (x < 1 / 10 ^ 14 → cleanupEntry x = 0) ∧
    (1 < x → x < 1 + 9 / 10 ^ 10 → cleanupEntry x = 1) ∧
    (1 / 10 ^ 14 ≤ x → x ≤ 1 → cleanupEntry x = x) ∧
    (1 + 9 / 10 ^ 10 ≤ x → cleanupEntry x = x) := by
  refine ⟨fun h => cleanupEntry_of_small h,
          fun h1 h2 => cleanupEntry_of_clamp h1 h2, ?_, ?_⟩
  · intro hge hle
    exact cleanupEntry_of_other (not_lt_of_ge hge) (by rintro ⟨h1, -⟩; linarith)
  · intro hge
    have h14 : (1 : ℚ) / 10 ^ 14 ≤ x := by
      have : (1 : ℚ) / 10 ^ 14 ≤ 1 + 9 / 10 ^ 10 := by norm_num
      linarith
    exact cleanupEntry_of_other (not_lt_of_ge h14) (by rintro ⟨-, h2⟩; linarith)

/-- C4 witness: the amended piecewise description evaluated at concrete
points in each regime. -/
theorem cleanupEntry_piecewise_witness :
    cleanupEntry (1 / 10 ^ 15) = 0 ∧ cleanupEntry (1 + 5 / 10 ^ 10) = 1 ∧
      cleanupEntry (1 / 2) = 1 / 2 ∧ cleanupEntry (1 + 9 / 10 ^ 10) = 1 + 9 / 10 ^ 10 :=
  ⟨(cleanupEntry_piecewise (1 / 10 ^ 15)).1 (by norm_num),
   (cleanupEntry_piecewise (1 + 5 / 10 ^ 10)).2.1 (by norm_num) (by norm_num),
   (cleanupEntry_piecewise (1 / 2)).2.2.1 (by norm_num) (by norm_num),
   (cleanupEntry_piecewise (1 + 9 / 10 ^ 10)).2.2.2 (by norm_num)⟩

/-! EquilChargeStates: claims C2 and C3. -/

theorem loadStep_none_loaded (files : String → Option FileRec) (elements : List String)
    (ad : AtomicData) (loaded : Bool)
    (h : loadStep files elements none = .ok (ad, loaded)) : loaded = true := by
  unfold loadStep at h
  simp only [] at h
  cases hr : read_atomic_data elements files with
  | error msg => rw [hr] at h; simp only [] at h; cases h
  | ok ad2 => rw [hr] at h; simp only [] at h; cases h; rfl

/-- C2 counterexample: calling EquilChargeStates with AtomicData absent
does NOT raise an error and DOES perform a load — with a data directory
holding a valid hydrogen file the call succeeds and the load flag is
true. -/
theorem EquilChargeStates_absent_loads_cex :
    EquilChargeStates fit0 files0 2 "H" none = .ok ([1, 0], true) := by
  norm_num [EquilChargeStates, loadStep, read_atomic_data, read_atomic_data_rest, readElem,
    AtomicNumbers, AtomicNumbersList, dictLookup, files0, fileH, mkElemData, fit0,
    equilCleanupRow, equilCleanupEntry, List.get?]

/-- C2 (amended): when AtomicData is absent (line 232 tests the argument
class against dict, so None falls into the reload branch),
EquilChargeStates falls back to loading the atomic data itself via
read_atomic_data for the single requested element: every successful call
with absent AtomicData has really performed a load, and a failing load
is the error the caller sees (no InvalidAtomicData error exists anywhere
in the module). -/
theorem EquilChargeStates_autoloads (func_index_te : ℚ → List ℚ → ℕ)
    (files : String → Option FileRec) (temperature : ℚ) (element : String) :
    (∀ cs loaded, EquilChargeStates func_index_te files temperature element none =
        .ok (cs, loaded) → loaded = true) ∧
    (∀ msg, read_atomic_data [element] files = .error msg →
      EquilChargeStates func_index_te files temperature element none = .error msg) := by
  constructor
  · intro cs loaded h
    unfold EquilChargeStates at h
    cases hl : loadStep files [element] none with
    | error msg => rw [hl] at h; simp only [] at h; cases h
    | ok p =>
      obtain ⟨ad, loaded2⟩ := p
      rw [hl] at h
      simp only [] at h
      cases ht : dictLookup element ad.tables with
      | none => rw [ht] at h; simp only [] at h; cases h
      | some t =>
        rw [ht] at h
        simp only [] at h
        cases hg : t.equistate.get? (func_index_te temperature ad.temperatures) with
        | none => rw [hg] at h; simp only [] at h; cases h
        | some row =>
          rw [hg] at h
          simp only [] at h
          cases hc : equilCleanupRow row with
          | error msg => rw [hc] at h; simp only [] at h; cases h
          | ok cleaned =>
            rw [hc] at h
            simp only [] at h
            cases h
            exact loadStep_none_loaded files [element] ad loaded hl
  · intro msg hr
    unfold EquilChargeStates loadStep
    rw [hr]

/-- C2 witness: with an empty data directory and absent AtomicData, the
surfaced error is exactly the failed load's file-not-found error. -/
theorem EquilChargeStates_autoloads_witness :
    EquilChargeStates fit0 filesNone 2 "H" none = .error "No such file: H" :=
  (EquilChargeStates_autoloads fit0 filesNone 2 "H").2 "No such file: H" (by decide)

/-- C3 (code bug): EquilChargeStates does NOT apply Operation B's
cleanup.  Its elif branch (line 241) reads the stale expression
`ChargeStates[element][istate]`, string-indexing the one-dimensional
row, so on a row with an entry slightly above 1.0 (which Operation B's
cleanup at lines 184-188 would clamp to 1.0, second conjunct) the
function raises IndexError instead of returning normally. -/
theorem EquilChargeStates_stale_index_crash :
    EquilChargeStates fit0 files0 2 "H" (some adOver) =
        .error "IndexError: only integers are valid indices" ∧
      cleanupRow [1 + 5 / 10 ^ 10, 0] = [1, 0] := by
  constructor
  · norm_num [EquilChargeStates, loadStep, adOver, mkElemData, fileHover, fileH, dictLookup,
      fit0, equilCleanupRow, equilCleanupEntry, List.get?]
  · norm_num [cleanupRow, cleanupEntry]

/-! Neutral initialization machinery (claims C8, C10 and the check of C5). -/

theorem neutralRow_eq_cons (z : ℕ) : neutralRow z = 1 :: List.replicate z 0 := by
  unfold neutralRow
  rw [List.replicate_succ]
  rfl

theorem neutralRow_length (z : ℕ) : (neutralRow z).length = z + 1 := by
  rw [neutralRow_eq_cons]
  simp

theorem neutralRow_get_zero (z : ℕ) : (neutralRow z).get? 0 = some 1 := by
  rw [neutralRow_eq_cons]
  rfl

theorem neutralRow_get_pos (z i : ℕ) (h0 : 0 < i) (hz : i < z + 1) :
    (neutralRow z).get? i = some 0 := by
  rw [neutralRow_eq_cons]
  cases i with
  | zero => cases h0
  | succ j => exact get?_replicate_of_lt 0 z j (by omega)

theorem neutralRow_sum (z : ℕ) : (neutralRow z).sum = 1 := by
  rw [neutralRow_eq_cons]
  simp [sum_replicate_zero]

theorem neutralPass_lookup :
    ∀ (elements : List String) (ns : List (String × List ℚ)),
      neutralPass elements = .ok ns → ∀ e ∈ elements,
        ∃ z, AtomicNumbers e = some z ∧ dictLookup e ns = some (neutralRow z) := by
  intro elements
  induction elements with
  | nil => intro ns h e he; cases he
  | cons e0 rest ih =>
    intro ns h e he
    unfold neutralPass at h
    cases h0 : AtomicNumbers e0 with
    | none => rw [h0] at h; simp only [] at h; cases h
    | some z0 =>
      rw [h0] at h
      simp only [] at h
      cases hr : neutralPass rest with
      | error msg => rw [hr] at h; simp only [] at h; cases h
      | ok ns1 =>
        rw [hr] at h
        simp only [] at h
        cases h
        by_cases hee : e = e0
        · subst hee
          exact ⟨z0, h0, by simp [dictLookup]⟩
        · have hmem : e ∈ rest := by
            cases he with
            | head => exact absurd rfl hee
            | tail _ hm => exact hm
          obtain ⟨z, hz, hl⟩ := ih ns1 hr e hmem
          exact ⟨z, hz, by simp [dictLookup, hee, hl]⟩

theorem neutralPass_total :
    ∀ (elements : List String), (∀ e ∈ elements, (AtomicNumbers e).isSome) →
      ∃ ns, neutralPass elements = .ok ns := by
  intro elements
  induction elements with
  | nil => intro h; exact ⟨[], rfl⟩
  | cons e0 rest ih =>
    intro h
    have h0 : (AtomicNumbers e0).isSome := h e0 (List.mem_cons_self e0 rest)
    cases hz : AtomicNumbers e0 with
    | none => rw [hz] at h0; cases h0
    | some z0 =>
      obtain ⟨ns1, hns1⟩ := ih fun e he => h e (List.mem_cons_of_mem e0 he)
      exact ⟨(e0, neutralRow z0) :: ns1, by simp [neutralPass, hz, hns1]⟩

theorem neutralPass_rows :
    ∀ (elements : List String) (ns : List (String × List ℚ)),
      neutralPass elements = .ok ns → ∀ p ∈ ns, ∃ z, p.2 = neutralRow z := by
  intro elements
  induction elements with
  | nil =>
    intro ns h p hp
    cases h
    cases hp
  | cons e0 rest ih =>
    intro ns h p hp
    unfold neutralPass at h
    cases h0 : AtomicNumbers e0 with
    | none => rw [h0] at h; simp only [] at h; cases h
    | some z0 =>
      rw [h0] at h
      simp only [] at h
      cases hr : neutralPass rest with
      | error msg => rw [hr] at h; simp only [] at h; cases h
      | ok ns1 =>
        rw [hr] at h
        simp only [] at h
        cases h
        cases hp with
        | head => exact ⟨z0, rfl⟩
        | tail _ hm => exact ih ns1 hr p hm

theorem sumCheck_ok_of_bounds :
    ∀ (cs : List (String × List ℚ)),
      (∀ p ∈ cs, 1 - 1 / 10 ^ 9 < p.2.sum ∧ p.2.sum < 1 + 1 / 10 ^ 9) →
      sumCheck cs = .ok () := by
  intro cs
  induction cs with
  | nil => intro h; rfl
  | cons q rest ih =>
    intro h
    obtain ⟨e, d⟩ := q
    have hp := h (e, d) (List.mem_cons_self _ _)
    unfold sumCheck
    rw [if_pos hp]
    exact ih fun r hr => h r (List.mem_cons_of_mem _ hr)

theorem sumCheck_ok_mem :
    ∀ (cs : List (String × List ℚ)) (u : Unit), sumCheck cs = .ok u →
      ∀ p ∈ cs, 1 - 1 / 10 ^ 9 < p.2.sum ∧ p.2.sum < 1 + 1 / 10 ^ 9 := by
  intro cs
  induction cs with
  | nil => intro u h p hp; cases hp
  | cons q rest ih =>
    intro u h p hp
    obtain ⟨e, d⟩ := q
    unfold sumCheck at h
    by_cases hb : 1 - 1 / 10 ^ 9 < d.sum ∧ d.sum < 1 + 1 / 10 ^ 9
    · rw [if_pos hb] at h
      cases hp with
      | head => exact hb
      | tail _ hm => exact ih u h p hm
    · rw [if_neg hb] at h
      cases h

theorem sumCheck_error_first :
    ∀ (cs : List (String × List ℚ)) (e : String) (d : List ℚ),
      (e, d) ∈ cs → ¬(1 - 1 / 10 ^ 9 < d.sum ∧ d.sum < 1 + 1 / 10 ^ 9) →
      ∃ e2 d2, (e2, d2) ∈ cs ∧ ¬(1 - 1 / 10 ^ 9 < d2.sum ∧ d2.sum < 1 + 1 / 10 ^ 9) ∧
        sumCheck cs = .error ("Initial charge states do not sum to one for " ++ e2) := by
  intro cs
  induction cs with
  | nil => intro e d hm hb; cases hm
  | cons q rest ih =>
    intro e d hm hb
    obtain ⟨e0, d0⟩ := q
    by_cases hb0 : 1 - 1 / 10 ^ 9 < d0.sum ∧ d0.sum < 1 + 1 / 10 ^ 9
    · have hm1 : (e, d) ∈ rest := by
        cases hm with
        | head => exact absurd hb0 hb
        | tail _ hmm => exact hmm
      obtain ⟨e2, d2, hmem, hbad, herr⟩ := ih e d hm1 hb
      refine ⟨e2, d2, List.mem_cons_of_mem _ hmem, hbad, ?_⟩
      unfold sumCheck
      rw [if_pos hb0]
      exact herr
    · refine ⟨e0, d0, List.mem_cons_self _ _, hb0, ?_⟩
      unfold sumCheck
      rw [if_neg hb0]

theorem create_nonpos_eval (func_index_te : ℚ → List ℚ → ℕ)
    (files : String → Option FileRec) (elements : List String)
    (temperature : ℚ) (adIn : Option AtomicData)
    (h : temperature ≤ 0) (ns : List (String × List ℚ))
    (hns : neutralPass elements = .ok ns) :
    create_ChargeStates_dictionary func_index_te files elements temperature adIn =
      .ok (ns, adIn, false) := by
  have hsum : sumCheck ns = .ok () := by
    apply sumCheck_ok_of_bounds
    intro p hp
    obtain ⟨z, hz⟩ := neutralPass_rows elements ns hns p hp
    rw [hz, neutralRow_sum]
    constructor <;> norm_num
  unfold create_ChargeStates_dictionary
  rw [hns]
  simp only []
  rw [if_neg (not_lt.mpr h), hsum]

/-- C10: for every temperature at most 0 (the default 0 and negative
values included), create_ChargeStates_dictionary returns the neutral
distribution for every requested element, performs no atomic-data load
(the load flag is false and the supplied AtomicData comes back
untouched), and raises no error — even though the spec states the
precondition temperature > 0 for the equilibrium operation. -/
theorem create_nonpositive_neutral_no_load (func_index_te : ℚ → List ℚ → ℕ)
    (files : String → Option FileRec) (elements : List String)
    (temperature : ℚ) (adIn : Option AtomicData)
    (h : temperature ≤ 0) (hknown : ∀ e ∈ elements, (AtomicNumbers e).isSome) :
    ∃ cs, create_ChargeStates_dictionary func_index_te files elements temperature adIn =
        .ok (cs, adIn, false) ∧
      ∀ e ∈ elements, ∃ z, AtomicNumbers e = some z ∧
        dictLookup e cs = some (neutralRow z) := by
  obtain ⟨ns, hns⟩ := neutralPass_total elements hknown
  exact ⟨ns, create_nonpos_eval func_index_te files elements temperature adIn h ns hns,
    fun e he => neutralPass_lookup elements ns hns e he⟩

/-- C10 witness: a concrete call at temperature -1 with a supplied table
and two elements. -/
theorem create_nonpositive_neutral_no_load_witness :
    ∃ cs, create_ChargeStates_dictionary fit0 files0 ["H", "Fe"] (-1) (some adDirty) =
        .ok (cs, some adDirty, false) ∧
      ∀ e ∈ ["H", "Fe"], ∃ z, AtomicNumbers e = some z ∧
        dictLookup e cs = some (neutralRow z) :=
  create_nonpositive_neutral_no_load fit0 files0 ["H", "Fe"] (-1) (some adDirty)
    (by norm_num) (by decide)

/-- C8: neutral initialization (create_ChargeStates_dictionary without a
positive temperature): for every requested element with atomic number Z,
the returned distribution is a (Z+1)-length vector whose entry at
index 0 is exactly 1.0 and whose other entries are exactly 0.0, so it
sums to exactly 1.0 and its single nonzero entry sits at index 0. -/
theorem create_neutral_distribution (func_index_te : ℚ → List ℚ → ℕ)
    (files : String → Option FileRec) (elements : List String)
    (temperature : ℚ) (adIn : Option AtomicData)
    (h : temperature ≤ 0) (hknown : ∀ e ∈ elements, (AtomicNumbers e).isSome)
    (e : String) (he : e ∈ elements) :
    ∃ cs, create_ChargeStates_dictionary func_index_te files elements temperature adIn =
        .ok (cs, adIn, false) ∧
      ∃ z d, AtomicNumbers e = some z ∧ dictLookup e cs = some d ∧
        d.length = z + 1 ∧ d.get? 0 = some 1 ∧
        (∀ i, 0 < i → i < z + 1 → d.get? i = some 0) ∧ d.sum = 1 := by
  obtain ⟨ns, hns⟩ := neutralPass_total elements hknown
  obtain ⟨z, hz, hl⟩ := neutralPass_lookup elements ns hns e he
  exact ⟨ns, create_nonpos_eval func_index_te files elements temperature adIn h ns hns,
    z, neutralRow z, hz, hl, neutralRow_length z, neutralRow_get_zero z,
    fun i h0 hi => neutralRow_get_pos z i h0 hi, neutralRow_sum z⟩

/-- C8 witness: the concrete neutral call for helium at the default
temperature 0. -/
theorem create_neutral_distribution_witness :
    ∃ cs, create_ChargeStates_dictionary fit0 files0 ["He"] 0 none =
        .ok (cs, none, false) ∧
      ∃ z d, AtomicNumbers "He" = some z ∧ dictLookup "He" cs = some d ∧
        d.length = z + 1 ∧ d.get? 0 = some 1 ∧
        (∀ i, 0 < i → i < z + 1 → d.get? i = some 0) ∧ d.sum = 1 :=
  create_neutral_distribution fit0 files0 ["He"] 0 none (by norm_num) (by decide)
    "He" (by decide)

theorem create_ok_sumCheck (func_index_te : ℚ → List ℚ → ℕ)
    (files : String → Option FileRec) (elements : List String)
    (temperature : ℚ) (adIn : Option AtomicData)
    (cs : List (String × List ℚ)) (adOut : Option AtomicData) (loaded : Bool)
    (h : create_ChargeStates_dictionary func_index_te files elements temperature adIn =
      .ok (cs, adOut, loaded)) : sumCheck cs = .ok () := by
  unfold create_ChargeStates_dictionary at h
  cases hn : neutralPass elements with
  | error msg => rw [hn] at h; simp only [] at h; cases h
  | ok neutral =>
    rw [hn] at h
    simp only [] at h
    by_cases hpos : 0 < temperature
    · rw [if_pos hpos] at h
      cases hl : loadStep files elements adIn with
      | error msg => rw [hl] at h; simp only [] at h; cases h
      | ok p =>
        obtain ⟨ad, loaded2⟩ := p
        rw [hl] at h
        simp only [] at h
        cases he : equilPass (func_index_te temperature ad.temperatures) elements ad with
        | error msg => rw [he] at h; simp only [] at h; cases h
        | ok q =>
          obtain ⟨cs2, ad2⟩ := q
          rw [he] at h
          simp only [] at h
          cases hs : sumCheck cs2 with
          | error msg => rw [hs] at h; simp only [] at h; cases h
          | ok u =>
            rw [hs] at h
            simp only [] at h
            cases h
            cases u
            exact hs
    · rw [if_neg hpos] at h
      cases hs : sumCheck neutral with
      | error msg => rw [hs] at h; simp only [] at h; cases h
      | ok u =>
        rw [hs] at h
        simp only [] at h
        cases h
        cases u
        exact hs

/-- C5: create_ChargeStates_dictionary checks every requested element's
(cleaned) distribution sum against the open interval
(1 - 1e-9, 1 + 1e-9).  First conjunct: on any successful return, every
entry of the returned dictionary satisfies the bound.  Second conjunct:
on the equilibrium branch, whenever some element of the computed
dictionary violates the bound, the call fails with the normalization
assert message naming an offending element. -/
theorem create_sum_normalization :
    (∀ (func_index_te : ℚ → List ℚ → ℕ) (files : String → Option FileRec)
        (elements : List String) (temperature : ℚ) (adIn : Option AtomicData)
        (cs : List (String × List ℚ)) (adOut : Option AtomicData) (loaded : Bool),
      create_ChargeStates_dictionary func_index_te files elements temperature adIn =
          .ok (cs, adOut, loaded) →
      ∀ p ∈ cs, 1 - 1 / 10 ^ 9 < p.2.sum ∧ p.2.sum < 1 + 1 / 10 ^ 9) ∧
    (∀ (func_index_te : ℚ → List ℚ → ℕ) (files : String → Option FileRec)
        (elements : List String) (temperature : ℚ) (ad : AtomicData)
        (ns cs : List (String × List ℚ)) (ad2 : AtomicData),
      0 < temperature → neutralPass elements = .ok ns →
      equilPass (func_index_te temperature ad.temperatures) elements ad = .ok (cs, ad2) →
      ∀ e d, (e, d) ∈ cs → ¬(1 - 1 / 10 ^ 9 < d.sum ∧ d.sum < 1 + 1 / 10 ^ 9) →
      ∃ e2 d2, (e2, d2) ∈ cs ∧ ¬(1 - 1 / 10 ^ 9 < d2.sum ∧ d2.sum < 1 + 1 / 10 ^ 9) ∧
        create_ChargeStates_dictionary func_index_te files elements temperature (some ad) =
          .error ("Initial charge states do not sum to one for " ++ e2)) := by
  constructor
  · intro func_index_te files elements temperature adIn cs adOut loaded h p hp
    exact sumCheck_ok_mem cs ()
      (create_ok_sumCheck func_index_te files elements temperature adIn cs adOut loaded h)
      p hp
  · intro func_index_te files elements temperature ad ns cs ad2 hpos hns he e d hm hb
    obtain ⟨e2, d2, hmem, hbad, herr⟩ := sumCheck_error_first cs e d hm hb
    refine ⟨e2, d2, hmem, hbad, ?_⟩
    unfold create_ChargeStates_dictionary
    rw [hns]
    simp only []
    rw [if_pos hpos]
    have hl : loadStep files elements (some ad) = .ok (ad, false) := rfl
    rw [hl]
    simp only []
    rw [he]
    simp only []
    rw [herr]

/-- C5 witness: the sum bound concluded for the concrete hydrogen call
at the default temperature. -/
theorem create_sum_normalization_witness :
    1 - 1 / 10 ^ 9 < (neutralRow 1).sum ∧ (neutralRow 1).sum < 1 + 1 / 10 ^ 9 :=
  create_sum_normalization.1 fit0 files0 ["H"] 0 none [("H", neutralRow 1)] none false
    (create_nonpos_eval fit0 files0 ["H"] 0 none (by norm_num) [("H", neutralRow 1)]
      (by simp [neutralPass, AtomicNumbers, AtomicNumbersList, dictLookup]))
    ("H", neutralRow 1) (by simp)

/-! Equilibrium-branch aliasing machinery (claim C1). -/

theorem dictLookup_mapSetRow :
    ∀ (l : List (String × ElemData)) (key e : String) (idx : ℕ) (r : List ℚ),
      dictLookup key (l.map (setRowFn e idx r)) =
      if key = e then
        (dictLookup key l).map fun t => { t with equistate := t.equistate.set idx r }
      else dictLookup key l := by
  intro l
  induction l with
  | nil =>
    intro key e idx r
    by_cases h : key = e <;> simp [dictLookup, h]
  | cons q rest ih =>
    intro key e idx r
    obtain ⟨k, v⟩ := q
    rw [List.map_cons]
    by_cases hke : k = e
    · subst hke
      rw [show setRowFn k idx r (k, v) =
        (k, { v with equistate := v.equistate.set idx r }) from by simp [setRowFn]]
      by_cases hkey : key = k
      · subst hkey
        simp [dictLookup]
      · simp [dictLookup, hkey, ih]
    · rw [show setRowFn e idx r (k, v) = (k, v) from by simp [setRowFn, hke]]
      by_cases hkey : key = k
      · subst hkey
        simp [dictLookup, hke]
      · simp [dictLookup, hke, hkey, ih]

theorem lookup_setEquistateRow_self (ad : AtomicData) (e : String) (idx : ℕ) (r : List ℚ) :
    dictLookup e (setEquistateRow ad e idx r).tables =
      (dictLookup e ad.tables).map fun t =>
        { t with equistate := t.equistate.set idx r } := by
  have h2 : (setEquistateRow ad e idx r).tables =
      ad.tables.map (setRowFn e idx r) := rfl
  rw [h2, dictLookup_mapSetRow, if_pos rfl]

theorem lookup_setEquistateRow_ne (ad : AtomicData) (e e2 : String) (idx : ℕ)
    (r : List ℚ) (h : e2 ≠ e) :
    dictLookup e2 (setEquistateRow ad e idx r).tables = dictLookup e2 ad.tables := by
  have h2 : (setEquistateRow ad e idx r).tables =
      ad.tables.map (setRowFn e idx r) := rfl
  rw [h2, dictLookup_mapSetRow, if_neg h]

theorem equilPass_frame (idx : ℕ) :
    ∀ (elements : List String) (ad : AtomicData) (cs : List (String × List ℚ))
      (ad2 : AtomicData), equilPass idx elements ad = .ok (cs, ad2) →
      ∀ e2, e2 ∉ elements → dictLookup e2 ad2.tables = dictLookup e2 ad.tables := by
  intro elements
  induction elements with
  | nil =>
    intro ad cs ad2 h e2 _
    simp only [equilPass] at h
    cases h
    rfl
  | cons e0 rest ih =>
    intro ad cs ad2 h e2 hnm
    unfold equilPass at h
    cases ht : dictLookup e0 ad.tables with
    | none => rw [ht] at h; simp only [] at h; cases h
    | some t =>
      rw [ht] at h
      simp only [] at h
      cases hg : t.equistate.get? idx with
      | none => rw [hg] at h; simp only [] at h; cases h
      | some row =>
        rw [hg] at h
        simp only [] at h
        cases hrec : equilPass idx rest (setEquistateRow ad e0 idx (cleanupRow row)) with
        | error msg => rw [hrec] at h; simp only [] at h; cases h
        | ok q =>
          obtain ⟨cs1, ad3⟩ := q
          rw [hrec] at h
          simp only [] at h
          cases h
          have hne : e2 ≠ e0 := fun hh => hnm (hh ▸ List.mem_cons_self e0 rest)
          have h2 : e2 ∉ rest := fun hh => hnm (List.mem_cons_of_mem e0 hh)
          rw [ih (setEquistateRow ad e0 idx (cleanupRow row)) cs1 ad2 hrec e2 h2]
          exact lookup_setEquistateRow_ne ad e0 e2 idx (cleanupRow row) hne

theorem equilPass_spec (idx : ℕ) :
    ∀ (elements : List String) (ad : AtomicData) (cs : List (String × List ℚ))
      (ad2 : AtomicData), elements.Nodup → equilPass idx elements ad = .ok (cs, ad2) →
      ∀ e ∈ elements, ∃ t row,
        dictLookup e ad.tables = some t ∧
        t.equistate.get? idx = some row ∧
        dictLookup e cs = some (cleanupRow row) ∧
        ∃ t2, dictLookup e ad2.tables = some t2 ∧
          t2.equistate.get? idx = some (cleanupRow row) := by
  intro elements
  induction elements with
  | nil => intro ad cs ad2 _ h e he; cases he
  | cons e0 rest ih =>
    intro ad cs ad2 hnd h e he
    unfold equilPass at h
    cases ht : dictLookup e0 ad.tables with
    | none => rw [ht] at h; simp only [] at h; cases h
    | some t0 =>
      rw [ht] at h
      simp only [] at h
      cases hg : t0.equistate.get? idx with
      | none => rw [hg] at h; simp only [] at h; cases h
      | some row0 =>
        rw [hg] at h
        simp only [] at h
        cases hrec : equilPass idx rest (setEquistateRow ad e0 idx (cleanupRow row0)) with
        | error msg => rw [hrec] at h; simp only [] at h; cases h
        | ok q =>
          obtain ⟨cs1, ad3⟩ := q
          rw [hrec] at h
          simp only [] at h
          cases h
          have hnd0 : e0 ∉ rest := (List.nodup_cons.mp hnd).1
          have hndr : rest.Nodup := (List.nodup_cons.mp hnd).2
          cases he with
          | head =>
            refine ⟨t0, row0, ht, hg, by simp [dictLookup], ?_⟩
            have hfr := equilPass_frame idx rest
              (setEquistateRow ad e0 idx (cleanupRow row0)) cs1 ad2 hrec e0 hnd0
            rw [hfr, lookup_setEquistateRow_self, ht]
            exact ⟨{ t0 with equistate := t0.equistate.set idx (cleanupRow row0) }, rfl,
              get?_set_self t0.equistate idx (cleanupRow row0) (get?_some_lt hg)⟩
          | tail _ hm =>
            have hne : e ≠ e0 := fun hh => hnd0 (hh ▸ hm)
            obtain ⟨t, row, hlt, hlg, hlcs, t2, hlt2, hlg2⟩ :=
              ih (setEquistateRow ad e0 idx (cleanupRow row0)) cs1 ad2 hndr hrec e hm
            rw [lookup_setEquistateRow_ne ad e0 e idx (cleanupRow row0) hne] at hlt
            exact ⟨t, row, hlt, hlg, by simp [dictLookup, hne, hlcs], t2, hlt2, hlg2⟩

theorem create_adDirty_eval :
    create_ChargeStates_dictionary fit0 files0 ["H"] 2 (some adDirty) =
      .ok ([("H", [1, 0])], some adDirtyPost, false) := by
  norm_num [create_ChargeStates_dictionary, neutralPass, AtomicNumbers, AtomicNumbersList,
    dictLookup, loadStep, equilPass, setEquistateRow, adDirty, adDirtyPost, mkElemData,
    fileHdirty, fileH, fit0, cleanupRow, cleanupEntry, List.get?, sumCheck, neutralRow]

/-- C1 counterexample: a concrete equilibrium call with a supplied
AtomicData table whose hydrogen equilibrium row carries sub-threshold
roundoff dust.  The call succeeds, but the caller's table is different
after the call (the per-entry cleanup wrote through the NumPy view bound
at line 182), so the returned distribution is not a copy and the source
equistate table is not left unchanged. -/
theorem create_equilibrium_mutates_table_cex :
    create_ChargeStates_dictionary fit0 files0 ["H"] 2 (some adDirty) =
        .ok ([("H", [1, 0])], some adDirtyPost, false) ∧
      adDirtyPost ≠ adDirty := by
  refine ⟨create_adDirty_eval, ?_⟩
  norm_num [adDirty, adDirtyPost, setEquistateRow, setRowFn, mkElemData, fileHdirty, fileH,
    List.set]

/-- C1 (amended): in equilibrium initialization with a supplied
AtomicData, the distribution returned for each requested element is the
equilibrium-population row at the resolved temperature index cleaned IN
PLACE, not a copy: after the call the supplied table's equistate row at
that index equals the cleaned row (the cleanup mutates the source
table), and the returned distribution is that same cleaned row, so
mutation of the row is observable through the table. -/
theorem create_equilibrium_row_aliased (func_index_te : ℚ → List ℚ → ℕ)
    (files : String → Option FileRec) (elements : List String)
    (temperature : ℚ) (ad : AtomicData) (cs : List (String × List ℚ))
    (adOut : Option AtomicData) (loaded : Bool)
    (hpos : 0 < temperature) (hnd : elements.Nodup)
    (hok : create_ChargeStates_dictionary func_index_te files elements temperature
      (some ad) = .ok (cs, adOut, loaded)) :
    loaded = false ∧ ∃ ad2, adOut = some ad2 ∧ ∀ e ∈ elements, ∃ t row,
      dictLookup e ad.tables = some t ∧
      t.equistate.get? (func_index_te temperature ad.temperatures) = some row ∧
      dictLookup e cs = some (cleanupRow row) ∧
      ∃ t2, dictLookup e ad2.tables = some t2 ∧
        t2.equistate.get? (func_index_te temperature ad.temperatures) =
          some (cleanupRow row) := by
  unfold create_ChargeStates_dictionary at hok
  cases hn : neutralPass elements with
  | error msg => rw [hn] at hok; simp only [] at hok; cases hok
  | ok neutral =>
    rw [hn] at hok
    simp only [] at hok
    rw [if_pos hpos] at hok
    have hl : loadStep files elements (some ad) = .ok (ad, false) := rfl
    rw [hl] at hok
    simp only [] at hok
    cases he : equilPass (func_index_te temperature ad.temperatures) elements ad with
    | error msg => rw [he] at hok; simp only [] at hok; cases hok
    | ok q =>
      obtain ⟨cs2, ad3⟩ := q
      rw [he] at hok
      simp only [] at hok
      cases hs : sumCheck cs2 with
      | error msg => rw [hs] at hok; simp only [] at hok; cases hok
      | ok u =>
        rw [hs] at hok
        simp only [] at hok
        cases hok
        exact ⟨rfl, ad3, rfl,
          equilPass_spec (func_index_te temperature ad.temperatures) elements ad cs
            ad3 hnd he⟩

/-- C1 witness: the amended view-semantics statement instantiated at the
concrete hydrogen call. -/
theorem create_equilibrium_row_aliased_witness :
    (false : Bool) = false ∧ ∃ ad2, (some adDirtyPost : Option AtomicData) = some ad2 ∧
      ∀ e ∈ ["H"], ∃ t row,
        dictLookup e adDirty.tables = some t ∧
        t.equistate.get? (fit0 2 adDirty.temperatures) = some row ∧
        dictLookup e [("H", [1, 0])] = some (cleanupRow row) ∧
        ∃ t2, dictLookup e ad2.tables = some t2 ∧
          t2.equistate.get? (fit0 2 adDirty.temperatures) = some (cleanupRow row) :=
  create_equilibrium_row_aliased fit0 files0 ["H"] 2 adDirty [("H", [1, 0])]
    (some adDirtyPost) false (by norm_num) (by decide) create_adDirty_eval

/-! Atomic-data loader grid consistency (claim C6). -/

theorem read_rest_cons (files : String → Option FileRec) (e : String)
    (rest : List String) (ad : AtomicData) :
    read_atomic_data_rest files (e :: rest) ad =
      match read_atomic_data_step files e ad with
      | .error msg => .error msg
      | .ok ad2 => read_atomic_data_rest files rest ad2 := rfl

theorem read_step_ok (files : String → Option FileRec) (e : String) (ad : AtomicData)
    (z : ℕ) (f : FileRec) (hre : readElem files e = .ok (z, f))
    (hnte : f.nte = ad.nte) (hnel : f.nelems = ad.nelems)
    (hcl : np_allclose ad.temperatures f.temperatures = true) :
    read_atomic_data_step files e ad =
      .ok { ad with tables := ad.tables ++ [(e, mkElemData e z f)] } := by
  unfold read_atomic_data_step
  rw [hre]
  simp only []
  rw [if_neg (by simp [hnte]), if_neg (by simp [hnel]), if_neg (by simp [hcl])]

theorem rest_ok_of_agree (files : String → Option FileRec) :
    ∀ (rest : List String) (ad : AtomicData),
      (∀ e ∈ rest, ∃ z2 f2, readElem files e = .ok (z2, f2) ∧ f2.nte = ad.nte ∧
        f2.nelems = ad.nelems ∧ np_allclose ad.temperatures f2.temperatures = true) →
      ∃ ad2, read_atomic_data_rest files rest ad = .ok ad2 ∧ ad2.nte = ad.nte ∧
        ad2.nelems = ad.nelems ∧ ad2.temperatures = ad.temperatures := by
  intro rest
  induction rest with
  | nil => intro ad h; exact ⟨ad, rfl, rfl, rfl, rfl⟩
  | cons e0 rest2 ih =>
    intro ad h
    obtain ⟨z0, f0, hre, hnte, hnel, hclose⟩ := h e0 (List.mem_cons_self _ _)
    obtain ⟨ad2, hok, hp1, hp2, hp3⟩ :=
      ih { ad with tables := ad.tables ++ [(e0, mkElemData e0 z0 f0)] }
        (fun e he => h e (List.mem_cons_of_mem _ he))
    refine ⟨ad2, ?_, hp1, hp2, hp3⟩
    rw [read_rest_cons, read_step_ok files e0 ad z0 f0 hre hnte hnel hclose]
    simp only []
    exact hok

theorem rest_error_of_mismatch (files : String → Option FileRec) :
    ∀ (rest : List String) (ad : AtomicData),
      (∀ e ∈ rest, ∃ z2 f2, readElem files e = .ok (z2, f2)) →
      (∃ e ∈ rest, ∃ z2 f2, readElem files e = .ok (z2, f2) ∧
        (f2.nte ≠ ad.nte ∨ f2.nelems ≠ ad.nelems ∨
          np_allclose ad.temperatures f2.temperatures = false)) →
      ∃ msg, read_atomic_data_rest files rest ad = .error msg ∧
        ((∃ e2, msg =
            "Atomic data files have different number of temperature levels: " ++ e2) ∨
         (∃ e2, msg = "Atomic data files have different number of elements: " ++ e2) ∨
         msg = "Atomic data files have different temperature bins") := by
  intro rest
  induction rest with
  | nil =>
    intro ad hall hex
    obtain ⟨e, he, -⟩ := hex
    cases he
  | cons e0 rest2 ih =>
    intro ad hall hex
    obtain ⟨z0, f0, hre⟩ := hall e0 (List.mem_cons_self _ _)
    by_cases hnte : f0.nte = ad.nte
    · by_cases hnel : f0.nelems = ad.nelems
      · by_cases hcl : np_allclose ad.temperatures f0.temperatures = true
        · obtain ⟨e, he, z2, f2, hre2, hmis⟩ := hex
          cases he with
          | head =>
            rw [hre] at hre2
            cases hre2
            rcases hmis with hm | hm | hm
            · exact absurd hnte hm
            · exact absurd hnel hm
            · rw [hm] at hcl; cases hcl
          | tail _ hm2 =>
            obtain ⟨msg, herr, hshape⟩ :=
              ih { ad with tables := ad.tables ++ [(e0, mkElemData e0 z0 f0)] }
                (fun e3 he3 => hall e3 (List.mem_cons_of_mem _ he3))
                ⟨e, hm2, z2, f2, hre2, hmis⟩
            refine ⟨msg, ?_, hshape⟩
            rw [read_rest_cons, read_step_ok files e0 ad z0 f0 hre hnte hnel hcl]
            simp only []
            exact herr
        · refine ⟨"Atomic data files have different temperature bins", ?_,
            Or.inr (Or.inr rfl)⟩
          rw [read_rest_cons]
          have hstep : read_atomic_data_step files e0 ad =
              .error "Atomic data files have different temperature bins" := by
            unfold read_atomic_data_step
            rw [hre]
            simp only []
            rw [if_neg (by simp [hnte]), if_neg (by simp [hnel]), if_pos hcl]
          rw [hstep]
      · refine ⟨"Atomic data files have different number of elements: " ++ e0, ?_,
          Or.inr (Or.inl ⟨e0, rfl⟩)⟩
        rw [read_rest_cons]
        have hstep : read_atomic_data_step files e0 ad =
            .error ("Atomic data files have different number of elements: " ++ e0) := by
          unfold read_atomic_data_step
          rw [hre]
          simp only []
          rw [if_neg (by simp [hnte]), if_pos hnel]
        rw [hstep]
    · refine ⟨"Atomic data files have different number of temperature levels: " ++ e0,
        ?_, Or.inl ⟨e0, rfl⟩⟩
      rw [read_rest_cons]
      have hstep : read_atomic_data_step files e0 ad =
          .error ("Atomic data files have different number of temperature levels: " ++ e0) := by
        unfold read_atomic_data_step
        rw [hre]
        simp only []
        rw [if_pos hnte]
      rw [hstep]

/-- C6: read_atomic_data adopts the first element's grid length (nte),
element-count field (nelems) and temperature grid.  Failure direction:
assuming every requested file is present and readable, if any element
after the first differs in nte or nelems, or its temperature grid
differs from the adopted one beyond numpy.allclose tolerance, the load
fails with one of the three inconsistent-grid assert messages.  Success
direction: if every subsequent element's record agrees (equal nte and
nelems, grid allclose to the adopted one), the load succeeds with the
first element's grid stored once at top level.  The well-formedness
hypotheses record that each file's temperature record holds exactly nte
reals, tying np_allclose's equal-length reading of numpy.allclose to the
broadcast-free case that actually occurs. -/
theorem read_atomic_data_grid_consistency (files : String → Option FileRec)
    (first : String) (rest : List String) (z : ℕ) (f : FileRec)
    (h1 : readElem files first = .ok (z, f))
    (hwf1 : f.temperatures.length = f.nte)
    (hwfr : ∀ e ∈ rest, fileWFb files e = true) :
    ((∀ e ∈ rest, ∃ z2 f2, readElem files e = .ok (z2, f2) ∧ f2.nte = f.nte ∧
        f2.nelems = f.nelems ∧ np_allclose f.temperatures f2.temperatures = true) →
      ∃ ad, read_atomic_data (first :: rest) files = .ok ad ∧
        ad.nte = f.nte ∧ ad.nelems = f.nelems ∧ ad.temperatures = f.temperatures) ∧
    ((∀ e ∈ rest, ∃ z2 f2, readElem files e = .ok (z2, f2)) →
      (∃ e ∈ rest, ∃ z2 f2, readElem files e = .ok (z2, f2) ∧
        (f2.nte ≠ f.nte ∨ f2.nelems ≠ f.nelems ∨
          np_allclose f.temperatures f2.temperatures = false)) →
      ∃ msg, read_atomic_data (first :: rest) files = .error msg ∧
        ((∃ e2, msg =
            "Atomic data files have different number of temperature levels: " ++ e2) ∨
         (∃ e2, msg = "Atomic data files have different number of elements: " ++ e2) ∨
         msg = "Atomic data files have different temperature bins")) := by
  have hstep : read_atomic_data (first :: rest) files =
      read_atomic_data_rest files rest
        { nte := f.nte, nelems := f.nelems, temperatures := f.temperatures,
          tables := [(first, mkElemData first z f)] } := by
    simp only [read_atomic_data]
    rw [h1]
  constructor
  · intro hagree
    obtain ⟨ad2, hok, hn, he2, ht⟩ := rest_ok_of_agree files rest
      { nte := f.nte, nelems := f.nelems, temperatures := f.temperatures,
        tables := [(first, mkElemData first z f)] } hagree
    exact ⟨ad2, by rw [hstep]; exact hok, hn, he2, ht⟩
  · intro hall hex
    obtain ⟨msg, herr, hshape⟩ := rest_error_of_mismatch files rest
      { nte := f.nte, nelems := f.nelems, temperatures := f.temperatures,
        tables := [(first, mkElemData first z f)] } hall hex
    exact ⟨msg, by rw [hstep]; exact herr, hshape⟩

/-- C6 witness: the success direction at a concrete two-element load
whose one-point grids agree exactly. -/
theorem read_atomic_data_grid_consistency_witness :
    ∃ ad, read_atomic_data ["H", "He"] files0 = .ok ad ∧
      ad.nte = fileH.nte ∧ ad.nelems = fileH.nelems ∧
      ad.temperatures = fileH.temperatures :=
  (read_atomic_data_grid_consistency files0 "H" ["He"] 1 fileH (by decide) (by decide)
    (by
      intro e he
      simp at he
      subst he
      decide)).1
    (by
      intro e he
      simp at he
      subst he
      refine ⟨2, fileHe, by decide, rfl, rfl, ?_⟩
      norm_num [np_allclose, np_isclose, fileH, fileHe])

/-! Reformatter shape behaviour (claim C7). -/

theorem reformatRows_ok_mem :
    ∀ (steps : List ℕ) (csl : List (List (String × List ℚ))) (element : String)
      (ncharge : ℕ) (rows : List (List ℚ)),
      reformatRows csl element ncharge steps = .ok rows →
      ∀ istep ∈ steps, ∃ snapshot dist row,
        csl.get? istep = some snapshot ∧ dictLookup element snapshot = some dist ∧
        npSliceAssign ncharge dist = .ok row := by
  intro steps
  induction steps with
  | nil => intro csl element ncharge rows h istep hm; cases hm
  | cons s0 more ih =>
    intro csl element ncharge rows h istep hm
    unfold reformatRows at h
    cases h1 : csl.get? s0 with
    | none => rw [h1] at h; simp only [] at h; cases h
    | some snapshot =>
      rw [h1] at h
      simp only [] at h
      cases h2 : dictLookup element snapshot with
      | none => rw [h2] at h; simp only [] at h; cases h
      | some dist =>
        rw [h2] at h
        simp only [] at h
        cases h3 : npSliceAssign ncharge dist with
        | error msg => rw [h3] at h; simp only [] at h; cases h
        | ok row =>
          rw [h3] at h
          simp only [] at h
          cases h4 : reformatRows csl element ncharge more with
          | error msg => rw [h4] at h; simp only [] at h; cases h
          | ok rows1 =>
            rw [h4] at h
            simp only [] at h
            cases h
            cases hm with
            | head => exact ⟨snapshot, dist, row, h1, h2, h3⟩
            | tail _ hm2 => exact ih csl element ncharge rows1 h4 istep hm2

theorem reformatElems_ok_mem :
    ∀ (elements : List String) (csl : List (List (String × List ℚ))) (nsteps : ℕ)
      (out : List (String × List (List ℚ))),
      reformatElems csl nsteps elements = .ok out →
      ∀ e ∈ elements, ∃ z rows, AtomicNumbers e = some z ∧
        reformatRows csl e (z + 1) (List.range (nsteps + 1)) = .ok rows := by
  intro elements
  induction elements with
  | nil => intro csl nsteps out h e he; cases he
  | cons e0 rest ih =>
    intro csl nsteps out h e he
    unfold reformatElems at h
    cases h0 : AtomicNumbers e0 with
    | none => rw [h0] at h; simp only [] at h; cases h
    | some z0 =>
      rw [h0] at h
      simp only [] at h
      cases h1 : reformatRows csl e0 (z0 + 1) (List.range (nsteps + 1)) with
      | error msg => rw [h1] at h; simp only [] at h; cases h
      | ok rows0 =>
        rw [h1] at h
        simp only [] at h
        cases h2 : reformatElems csl nsteps rest with
        | error msg => rw [h2] at h; simp only [] at h; cases h
        | ok out1 =>
          rw [h2] at h
          simp only [] at h
          cases h
          cases he with
          | head => exact ⟨z0, rows0, h0, h1⟩
          | tail _ hm => exact ih csl nsteps out1 h2 e hm

/-- C7 counterexample: a hydrogen distribution of length 3 (expected
Z+1 = 2) is silently accepted — the slice on the right-hand side of the
assignment at lines 222-223 truncates it to its first two entries and
the reformat returns successfully instead of failing. -/
theorem reformat_truncates_cex :
    ReformatChargeStateList [[("H", [3 / 10, 3 / 10, 4 / 10])]] ["H"] 0 =
        .ok [("H", [[3 / 10, 3 / 10]])] ∧
      ([3 / 10, 3 / 10, 4 / 10] : List ℚ).length ≠ 1 + 1 := by
  constructor
  · norm_num [ReformatChargeStateList, reformatElems, reformatRows, npSliceAssign,
      AtomicNumbers, AtomicNumbersList, dictLookup, List.get?, List.range_succ,
      List.take]
  · norm_num

/-- C7 (amended): ReformatChargeStateList fails whenever some step's
distribution for some requested element is SHORTER than the expected
Z+1 and not of the broadcastable length 1 (so any length in
\x7b0\x7d ∪ [2, Z] aborts with an error); it does not reject every
wrong length — distributions longer than Z+1 are silently truncated to
their first Z+1 entries and a length-1 distribution is silently
broadcast across the row. -/
theorem reformat_short_length_fails
    (csl : List (List (String × List ℚ))) (elements : List String) (nsteps : ℕ)
    (e : String) (z : ℕ) (he : AtomicNumbers e = some z) (hmem : e ∈ elements)
    (istep : ℕ) (hstep : istep < nsteps + 1)
    (snapshot : List (String × List ℚ)) (hsnap : csl.get? istep = some snapshot)
    (dist : List ℚ) (hdist : dictLookup e snapshot = some dist)
    (hshort : dist.length < z + 1) (hone : dist.length ≠ 1) :
    ∃ msg, ReformatChargeStateList csl elements nsteps = .error msg := by
  cases hres : ReformatChargeStateList csl elements nsteps with
  | error msg => exact ⟨msg, rfl⟩
  | ok out =>
    exfalso
    obtain ⟨z2, rows, hz2, hrows⟩ :=
      reformatElems_ok_mem elements csl nsteps out hres e hmem
    rw [he] at hz2
    cases hz2
    obtain ⟨snapshot2, dist2, row, hs2, hd2, hassign⟩ :=
      reformatRows_ok_mem (List.range (nsteps + 1)) csl e (z + 1) rows hrows istep
        (List.mem_range.mpr hstep)
    rw [hsnap] at hs2
    cases hs2
    rw [hdist] at hd2
    cases hd2
    unfold npSliceAssign at hassign
    simp only [] at hassign
    rw [List.take_of_length_le (Nat.le_of_lt hshort)] at hassign
    rw [if_neg (Nat.ne_of_lt hshort)] at hassign
    rcases dist with - | ⟨x, - | ⟨y, tail⟩⟩
    · simp only [] at hassign
      cases hassign
    · exact hone rfl
    · simp only [] at hassign
      cases hassign

/-- C7 witness: a helium distribution of length 2 (expected Z+1 = 3,
not broadcastable) aborts the reformat. -/
theorem reformat_short_length_fails_witness :
    ∃ msg, ReformatChargeStateList [[("He", [1 / 2, 1 / 2])]] ["He"] 0 = .error msg :=
  reformat_short_length_fails [[("He", [1 / 2, 1 / 2])]] ["He"] 0 "He" 2
    (by decide) (by simp) 0 (by norm_num) [("He", [1 / 2, 1 / 2])]
    (by simp [List.get?]) [1 / 2, 1 / 2] (by simp [dictLookup]) (by simp) (by simp)

end SunNEI
